import Mathlib

/-!
Verification of the pixelate / map / reconstruct tool (src/main.rs).

The Rust program is embedded shallowly:

* pixels are `Rgba` quadruples of natural numbers; the source type `u8`
  is reflected by the validity predicate `Rgba.valid` (each channel at
  most 255) and by explicit `% 256` where the source casts with `as u8`;
* an input image is a width, a height and a pixel function, mirroring
  `image::GenericImageView::get_pixel` followed by `to_rgba`;
* the two `HashMap`s of `process_image` are association lists whose
  lookup returns the first binding of the key; the program only ever
  inserts keys that are absent, so first-binding lookup coincides with
  hash-map semantics;
* the `f64` tolerance is a rational number.  The source compares
  `sqrt(d2) <= tolerance`; for the nonnegative tolerances at which the
  comparison is ever evaluated this is equivalent over the reals to
  `d2 <= tolerance^2`, which is what `withinTol` computes.  Rounding of
  the `f64` square root is not modelled;
* file input and output are out of scope: `process_image` is modelled up
  to the data that is serialized, and `reconstruct_image` as a function
  returning either an error (in which case the source writes no output
  file, since `img.save` is its last statement) or the raster image it
  would save.
-/

/-- An RGBA sample: four channels, mirroring `image::Rgba<u8>`. -/
structure Rgba where
  r : ℕ
  g : ℕ
  b : ℕ
  a : ℕ
deriving DecidableEq, Repr

/-- Channel bounds that hold for every pixel a `u8` image can contain. -/
def Rgba.valid (c : Rgba) : Prop :=
  c.r ≤ 255 ∧ c.g ≤ 255 ∧ c.b ≤ 255 ∧ c.a ≤ 255

instance (c : Rgba) : Decidable c.valid := by
  unfold Rgba.valid; infer_instance

/-- A decoded raster image: dimensions plus a total pixel function.
The program only reads coordinates with `x < width` and `y < height`. -/
structure Image where
  width : ℕ
  height : ℕ
  pix : ℕ → ℕ → Rgba

/-- Every pixel of the image is a genuine `u8` quadruple. -/
def Image.Valid (img : Image) : Prop :=
  ∀ x y, (img.pix x y).valid

/-- Lowercase hexadecimal digit, as produced by the format specifier
`{:02x}` of `format!` in `process_image`: codes 48-57 are the decimal
digits, codes 97-102 the letters a-f. -/
def hexDigit (n : ℕ) : Char :=
  if n < 10 then Char.ofNat (48 + n)
  else if n < 16 then Char.ofNat (87 + n)
  else '?'

/-- The two digits `{:02x}` prints for a byte value. -/
def hexByteChars (n : ℕ) : List Char :=
  [hexDigit (n / 16), hexDigit (n % 16)]

/-- The canonical hex string of a sample:
`format!("#{:02x}{:02x}{:02x}{:02x}", r, g, b, a)` in the source. -/
def encodeHex (c : Rgba) : String :=
  ⟨'#' :: (hexByteChars c.r ++ hexByteChars c.g ++ hexByteChars c.b ++ hexByteChars c.a)⟩

/-- Value of one hexadecimal digit, as accepted by `u8::from_str_radix`
with radix 16: decimal digits, then either letter case. -/
def fromHexDigit (c : Char) : Option ℕ :=
  let n := c.toNat
  if 48 ≤ n ∧ n ≤ 57 then some (n - 48)
  else if 97 ≤ n ∧ n ≤ 102 then some (n - 87)
  else if 65 ≤ n ∧ n ≤ 70 then some (n - 55)
  else none

/-- `u8::from_str_radix` on a two-character slice: an optional leading
plus sign, then hex digits.  Two hex digits never overflow a `u8`. -/
def parseByte2 (c1 c2 : Char) : Option ℕ :=
  if c1 = '+' then fromHexDigit c2
  else
    match fromHexDigit c1, fromHexDigit c2 with
    | some d1, some d2 => some (d1 * 16 + d2)
    | _, _ => none

/-- `hex_to_rgba` of the source: the string must be 9 characters long,
start with `#`, and split into four parseable byte slices.  The source
measures the length in bytes; for the ASCII strings the program itself
produces, bytes and characters coincide. -/
def hexToRgba (s : String) : Except String Rgba :=
  match s.data with
  | ['#', r1, r2, g1, g2, b1, b2, a1, a2] =>
    match parseByte2 r1 r2, parseByte2 g1 g2, parseByte2 b1 b2, parseByte2 a1 a2 with
    | some r, some g, some b, some a => Except.ok ⟨r, g, b, a⟩
    | _, _, _, _ => Except.error "invalid hex digit"
  | _ => Except.error "Invalid hex color"

/-- Squared Euclidean RGBA distance; `color_distance` of the source is
its square root. -/
def dist2 (c1 c2 : Rgba) : ℤ :=
  ((c1.r : ℤ) - c2.r) ^ 2 + ((c1.g : ℤ) - c2.g) ^ 2 +
    ((c1.b : ℤ) - c2.b) ^ 2 + ((c1.a : ℤ) - c2.a) ^ 2

/-- The comparison `color_distance(c1, c2) <= tolerance` of the source,
expressed without the square root: for the positive tolerances at which
the source evaluates it, `sqrt(d2) <= tol` iff `d2 <= tol^2`. -/
def withinTol (tol : ℚ) (c1 c2 : Rgba) : Bool :=
  decide ((dist2 c1 c2 : ℚ) ≤ tol ^ 2)

/-- First-binding association-list lookup; models `HashMap::get`.  The
program inserts a key only when it is absent, so a fresh binding at the
head is exactly `HashMap::insert`. -/
def alistGet {α β : Type} [DecidableEq α] : List (α × β) → α → Option β
  | [], _ => none
  | p :: ps, k => if p.1 = k then some p.2 else alistGet ps k

/-- The mutable state of the scan in `process_image`: `color_to_id`,
`id_to_color`, the fuzzy-match `palette`, and `next_id`. -/
structure ScanState where
  colorToId : List (String × ℕ)
  idToColor : List (ℕ × String)
  palette : List (ℕ × Rgba)
  nextId : ℕ
deriving DecidableEq, Repr

/-- State before the scan: identifier 0 is pre-seeded as the fully
transparent color, and `next_id` starts at 1. -/
def initState : ScanState :=
  { colorToId := [("#00000000", 0)]
    idToColor := [(0, "#00000000")]
    palette := []
    nextId := 1 }

/-- Identifier resolution for one sample, mirroring the body of the
inner loop of `process_image`: exact hex match, else fuzzy scan of the
palette in insertion order when `tolerance > 0.0 && a > 0`, else a fresh
identifier. -/
def resolveId (tol : ℚ) (st : ScanState) (c : Rgba) : ℕ × ScanState :=
  let hex := encodeHex c
  match alistGet st.colorToId hex with
  | some existingId => (existingId, st)
  | none =>
    let found := if 0 < tol ∧ 0 < c.a then st.palette.find? (fun p => withinTol tol c p.2) else none
    match found with
    | some p => (p.1, { st with colorToId := (hex, p.1) :: st.colorToId })
    | none =>
      (st.nextId,
        { colorToId := (hex, st.nextId) :: st.colorToId
          idToColor := (st.nextId, hex) :: st.idToColor
          palette := if st.nextId ≠ 0 then st.palette ++ [(st.nextId, c)] else st.palette
          nextId := st.nextId + 1 })

/-- Resolve one row of samples, accumulating the scan state. -/
def scanRow (tol : ℚ) : ScanState → List Rgba → List ℕ × ScanState
  | st, [] => ([], st)
  | st, c :: cs =>
    let r := resolveId tol st c
    let rest := scanRow tol r.2 cs
    (r.1 :: rest.1, rest.2)

/-- Resolve all rows of samples in order. -/
def scanRows (tol : ℚ) : ScanState → List (List Rgba) → List (List ℕ) × ScanState
  | st, [] => ([], st)
  | st, row :: rows =>
    let r := scanRow tol st row
    let rest := scanRows tol r.2 rows
    (r.1 :: rest.1, rest.2)

/-- Ceiling division; the number of steps `(0..n).step_by(b)` takes. -/
def ceilDiv (a b : ℕ) : ℕ := (a + b - 1) / b

/-- Sum of one channel over the clamped block extent, mirroring the
accumulation loops of `process_image`.  The `u64` accumulators cannot
overflow for any real image, so plain naturals are used. -/
def blockSum (img : Image) (chan : Rgba → ℕ) (x xEnd y yEnd : ℕ) : ℕ :=
  ((List.range (yEnd - y)).map fun dy =>
    ((List.range (xEnd - x)).map fun dx => chan (img.pix (x + dx) (y + dy))).sum).sum

/-- The averaged sample of the block whose top-left corner is `(x, y)`,
including the rule that forces a sample with zero (averaged) alpha to
`(0,0,0,0)`.  The casts `as u8` of the source appear as `% 256`; the
pixel count of the clamped extent is `(xEnd - x) * (yEnd - y)`. -/
def blockSample (img : Image) (B x y : ℕ) : Rgba :=
  if 1 < B then
    let xEnd := min (x + B) img.width
    let yEnd := min (y + B) img.height
    let cnt := (xEnd - x) * (yEnd - y)
    let avgA := blockSum img Rgba.a x xEnd y yEnd / cnt % 256
    if avgA = 0 then ⟨0, 0, 0, 0⟩
    else
      ⟨blockSum img Rgba.r x xEnd y yEnd / cnt % 256,
       blockSum img Rgba.g x xEnd y yEnd / cnt % 256,
       blockSum img Rgba.b x xEnd y yEnd / cnt % 256,
       avgA⟩
  else
    let p := img.pix x y
    if p.a = 0 then ⟨0, 0, 0, 0⟩ else p

/-- The plain per-channel truncating mean over the clamped block extent,
without the transparent-block rule: the averaging computation of
`process_image` taken on its own. -/
def blockMean (img : Image) (B x y : ℕ) : Rgba :=
  let xEnd := min (x + B) img.width
  let yEnd := min (y + B) img.height
  let cnt := (xEnd - x) * (yEnd - y)
  ⟨blockSum img Rgba.r x xEnd y yEnd / cnt % 256,
   blockSum img Rgba.g x xEnd y yEnd / cnt % 256,
   blockSum img Rgba.b x xEnd y yEnd / cnt % 256,
   blockSum img Rgba.a x xEnd y yEnd / cnt % 256⟩

/-- The samples the nested loops of `process_image` feed to identifier
resolution, in row-major order: one row per `y` step, one sample per
`x` step, with step `block_size`. -/
def sampleGrid (img : Image) (B : ℕ) : List (List Rgba) :=
  (List.range (ceilDiv img.height B)).map fun i =>
    (List.range (ceilDiv img.width B)).map fun j =>
      blockSample img B (j * B) (i * B)

/-- The whole scan of `process_image`: the identifier grid it pushes
into `matrix`, together with the final scan state (whose `idToColor` is
the serialized color table). -/
def scanImage (img : Image) (B : ℕ) (tol : ℚ) : List (List ℕ) × ScanState :=
  scanRows tol initState (sampleGrid img B)

/-- Number of distinct identifiers appearing in a grid. -/
def distinctCount (g : List (List ℕ)) : ℕ :=
  g.flatten.toFinset.card

/-- Map a fallible function over a list, stopping at the first error;
the per-cell loop body of `reconstruct_image` threaded through `?`. -/
def exceptMapList {α β : Type} (f : α → Except String β) : List α → Except String (List β)
  | [] => Except.ok []
  | x :: xs =>
    match f x, exceptMapList f xs with
    | Except.ok y, Except.ok ys => Except.ok (y :: ys)
    | Except.error e, _ => Except.error e
    | _, Except.error e => Except.error e

/-- One cell of reconstruction: look the identifier up in the color
table, decode its hex string, and fall back to transparent black (with
a warning on the error stream) when the identifier is absent. -/
def decodeCell (colors : List (ℕ × String)) (id : ℕ) : Except String Rgba :=
  match alistGet colors id with
  | some hex => hexToRgba hex
  | none => Except.ok ⟨0, 0, 0, 0⟩

/-- The image `reconstruct_image` builds and saves from a parsed
document.  An empty matrix is rejected; the buffer dimensions come from
the row count and the first row; a row longer than the first would make
`put_pixel` go out of bounds and abort before saving, which the model
reports as an error; cells beyond a short row keep the all-zero pixels
`ImageBuffer::new` starts from. -/
def reconstructImage (m : List (List ℕ)) (colors : List (ℕ × String)) :
    Except String Image :=
  if m.isEmpty then Except.error "Matrix is empty"
  else
    let height := m.length
    let width := (m.headD []).length
    if m.any (fun row => decide (width < row.length)) then
      Except.error "put_pixel out of bounds"
    else
      match exceptMapList (fun row => exceptMapList (decodeCell colors) row) m with
      | Except.error e => Except.error e
      | Except.ok rows =>
        Except.ok ⟨width, height, fun x y => ((rows.getD y []).getD x ⟨0, 0, 0, 0⟩)⟩

/-- `reconstruct_image` downstream of `serde_json::from_str`: a parse
failure (for instance a missing `colors` key) yields `none` and the
function propagates the error before touching the output path. -/
def reconstructFromParse (parsed : Option (List (List ℕ) × List (ℕ × String))) :
    Except String Image :=
  match parsed with
  | none => Except.error "missing field colors"
  | some (m, colors) => reconstructImage m colors

/-- The compact row rendering `serde_json::to_string` gives a `Vec<u32>`. -/
def rowToJson (row : List ℕ) : String :=
  "[" ++ String.intercalate "," (row.map Nat.repr) ++ "]"

/-- The matrix block of the custom serialization: one indented row per
line, a comma after every row but the last. -/
def matrixLinesJson (m : List (List ℕ)) : String :=
  String.join ((List.range m.length).map fun i =>
    "    " ++ rowToJson (m.getD i []) ++ (if i < m.length - 1 then "," else "") ++ "\n")

/-- The pretty rendering `serde_json::to_string_pretty` gives the color
map, for a given iteration order of its entries. -/
def colorsToJsonPretty (cs : List (ℕ × String)) : String :=
  if cs.isEmpty then "\x7b\x7d"
  else
    "\x7b\n" ++
      String.intercalate ",\n"
        (cs.map fun p => "  \"" ++ Nat.repr p.1 ++ "\": \"" ++ p.2 ++ "\"") ++
      "\n\x7d"

/-- The custom JSON serialization of `process_image`, as a function of
the matrix and of the order in which the colors `HashMap` happens to be
iterated (that order is not specified by the source). -/
def serializeOutput (m : List (List ℕ)) (cs : List (ℕ × String)) : String :=
  "\x7b\n  \"matrix\": [\n" ++ matrixLinesJson m ++
    "  ],\n  \"colors\": " ++ colorsToJsonPretty cs ++ "\n\x7d"

/-- A 1 by 1 opaque pure red image. -/
def redImg : Image := ⟨1, 1, fun _ _ => ⟨255, 0, 0, 255⟩⟩

/-- A 1 by 1 image whose only pixel is fully transparent but has a
nonzero red channel. -/
def transRedImg : Image := ⟨1, 1, fun _ _ => ⟨200, 0, 0, 0⟩⟩

/-- A 2 by 1 image whose block of size 2 averages to zero alpha while
the red channel average is 255. -/
def alphaAvgImg : Image :=
  ⟨2, 1, fun x _ => if x = 0 then ⟨255, 0, 0, 0⟩ else ⟨255, 0, 0, 1⟩⟩

/-- A 4 by 1 image on which a larger tolerance yields more distinct
identifiers than a smaller one. -/
def tolCexImg : Image :=
  ⟨4, 1, fun x _ =>
    match x with
    | 0 => ⟨0, 5, 0, 255⟩
    | 1 => ⟨8, 5, 0, 255⟩
    | 2 => ⟨11, 10, 0, 255⟩
    | _ => ⟨9, 0, 0, 255⟩⟩

theorem alistGet_nil {α β : Type} [DecidableEq α] (k : α) :
    alistGet ([] : List (α × β)) k = none := rfl

theorem alistGet_cons {α β : Type} [DecidableEq α] (k : α) (v : β) (ps : List (α × β)) (k' : α) :
    alistGet ((k, v) :: ps) k' = if k = k' then some v else alistGet ps k' := rfl

theorem fromHex_hexDigit : ∀ d : ℕ, d < 16 → fromHexDigit (hexDigit d) = some d := by decide

theorem hexDigit_ne_plus : ∀ d : ℕ, d < 16 → ¬(hexDigit d = '+') := by decide

theorem parseByte2_hexByte (n : ℕ) (h : n ≤ 255) :
    parseByte2 (hexDigit (n / 16)) (hexDigit (n % 16)) = some n := by
  have h1 : n / 16 < 16 := by omega
  have h2 : n % 16 < 16 := Nat.mod_lt _ (by norm_num)
  unfold parseByte2
  rw [if_neg (hexDigit_ne_plus _ h1), fromHex_hexDigit _ h1, fromHex_hexDigit _ h2]
  have := Nat.div_add_mod n 16
  simp only [Option.some.injEq]
  omega

theorem hexToRgba_encodeHex (c : Rgba) (hv : c.valid) :
    hexToRgba (encodeHex c) = Except.ok c := by
  obtain ⟨h1, h2, h3, h4⟩ := hv
  show hexToRgba ⟨'#' :: (hexByteChars c.r ++ hexByteChars c.g ++ hexByteChars c.b ++ hexByteChars c.a)⟩ = Except.ok c
  unfold hexByteChars hexToRgba
  simp only [List.cons_append, List.nil_append]
  rw [parseByte2_hexByte _ h1, parseByte2_hexByte _ h2, parseByte2_hexByte _ h3,
    parseByte2_hexByte _ h4]

theorem alistGet_singleton {α β : Type} [DecidableEq α] {k : α} {v : β} {k' : α} {v' : β}
    (h : alistGet [(k, v)] k' = some v') : k' = k ∧ v' = v := by
  rw [alistGet_cons] at h
  by_cases he : k = k'
  · rw [if_pos he] at h
    exact ⟨he.symm, (Option.some.injEq _ _ ▸ h).symm⟩
  · rw [if_neg he] at h
    exact absurd h (by simp [alistGet_nil])

theorem encodeHex_transparent : encodeHex ⟨0, 0, 0, 0⟩ = "#00000000" := by decide

theorem encodeHex_length (c : Rgba) : (encodeHex c).length = 9 := rfl

theorem resolveId_pres (tol : ℚ) (st : ScanState) (c : Rgba) (h : String) (i : ℕ)
    (hh : alistGet st.colorToId h = some i) :
    alistGet (resolveId tol st c).2.colorToId h = some i := by
  simp only [resolveId]
  cases hm : alistGet st.colorToId (encodeHex c) with
  | some j => exact hh
  | none =>
    have hne : ¬(encodeHex c = h) := by
      intro he
      rw [he, hh] at hm
      exact Option.noConfusion hm
    cases hf : (if 0 < tol ∧ 0 < c.a then st.palette.find? (fun p => withinTol tol c p.2) else none) with
    | some p =>
      show alistGet ((encodeHex c, p.1) :: st.colorToId) h = some i
      rw [alistGet_cons, if_neg hne]
      exact hh
    | none =>
      show alistGet ((encodeHex c, st.nextId) :: st.colorToId) h = some i
      rw [alistGet_cons, if_neg hne]
      exact hh

theorem resolveId_self (tol : ℚ) (st : ScanState) (c : Rgba) :
    alistGet (resolveId tol st c).2.colorToId (encodeHex c) = some (resolveId tol st c).1 := by
  simp only [resolveId]
  cases hm : alistGet st.colorToId (encodeHex c) with
  | some j => exact hm
  | none =>
    cases hf : (if 0 < tol ∧ 0 < c.a then st.palette.find? (fun p => withinTol tol c p.2) else none) with
    | some p =>
      show alistGet ((encodeHex c, p.1) :: st.colorToId) (encodeHex c) = some p.1
      rw [alistGet_cons, if_pos rfl]
    | none =>
      show alistGet ((encodeHex c, st.nextId) :: st.colorToId) (encodeHex c) = some st.nextId
      rw [alistGet_cons, if_pos rfl]

/-- Invariants of the scan state that hold before the scan and are
preserved by every identifier resolution. -/
structure ScanInv (st : ScanState) : Prop where
  pos : 1 ≤ st.nextId
  transC2I : alistGet st.colorToId "#00000000" = some 0
  transI2C : alistGet st.idToColor 0 = some "#00000000"
  boundC2I : ∀ h i, alistGet st.colorToId h = some i → i < st.nextId
  boundPal : ∀ p ∈ st.palette, p.1 < st.nextId
  keyI2C : ∀ h i, alistGet st.colorToId h = some i → ∃ s, alistGet st.idToColor i = some s
  palI2C : ∀ p ∈ st.palette, ∃ s, alistGet st.idToColor p.1 = some s

theorem scanInv_init : ScanInv initState := by
  refine ⟨le_refl 1, by decide, by decide, ?_, ?_, ?_, ?_⟩
  · intro h i hh
    show i < 1
    have := alistGet_singleton hh
    omega
  · intro p hp
    exact absurd hp (List.not_mem_nil p)
  · intro h i hh
    have h2 := alistGet_singleton hh
    exact ⟨"#00000000", by rw [h2.2]; decide⟩
  · intro p hp
    exact absurd hp (List.not_mem_nil p)

theorem resolveId_inv (tol : ℚ) (st : ScanState) (c : Rgba) (hS : ScanInv st) :
    ScanInv (resolveId tol st c).2 := by
  simp only [resolveId]
  cases hm : alistGet st.colorToId (encodeHex c) with
  | some j => exact hS
  | none =>
    have hneT : ¬(encodeHex c = "#00000000") := by
      intro he
      rw [he, hS.transC2I] at hm
      exact Option.noConfusion hm
    cases hf : (if 0 < tol ∧ 0 < c.a then st.palette.find? (fun p => withinTol tol c p.2) else none) with
    | some p =>
      have hpmem : p ∈ st.palette := by
        by_cases hcond : 0 < tol ∧ 0 < c.a
        · rw [if_pos hcond] at hf
          exact List.mem_of_find?_eq_some hf
        · rw [if_neg hcond] at hf
          exact Option.noConfusion hf
      show ScanInv { st with colorToId := (encodeHex c, p.1) :: st.colorToId }
      refine ⟨hS.pos, ?_, hS.transI2C, ?_, hS.boundPal, ?_, hS.palI2C⟩
      · show alistGet ((encodeHex c, p.1) :: st.colorToId) "#00000000" = some 0
        rw [alistGet_cons, if_neg hneT]
        exact hS.transC2I
      · intro h i hh
        rw [alistGet_cons] at hh
        by_cases he : encodeHex c = h
        · rw [if_pos he] at hh
          cases hh
          exact hS.boundPal p hpmem
        · rw [if_neg he] at hh
          exact hS.boundC2I h i hh
      · intro h i hh
        rw [alistGet_cons] at hh
        by_cases he : encodeHex c = h
        · rw [if_pos he] at hh
          cases hh
          exact hS.palI2C p hpmem
        · rw [if_neg he] at hh
          exact hS.keyI2C h i hh
    | none =>
      have hn0 : st.nextId ≠ 0 := by
        have := hS.pos
        omega
      show ScanInv
        { colorToId := (encodeHex c, st.nextId) :: st.colorToId
          idToColor := (st.nextId, encodeHex c) :: st.idToColor
          palette := if st.nextId ≠ 0 then st.palette ++ [(st.nextId, c)] else st.palette
          nextId := st.nextId + 1 }
      refine ⟨?_, ?_, ?_, ?_, ?_, ?_, ?_⟩
      · show 1 ≤ st.nextId + 1
        omega
      · show alistGet ((encodeHex c, st.nextId) :: st.colorToId) "#00000000" = some 0
        rw [alistGet_cons, if_neg hneT]
        exact hS.transC2I
      · show alistGet ((st.nextId, encodeHex c) :: st.idToColor) 0 = some "#00000000"
        rw [alistGet_cons, if_neg hn0]
        exact hS.transI2C
      · intro h i hh
        show i < st.nextId + 1
        rw [alistGet_cons] at hh
        by_cases he : encodeHex c = h
        · rw [if_pos he] at hh
          cases hh
          omega
        · rw [if_neg he] at hh
          have := hS.boundC2I h i hh
          omega
      · intro p hp
        show p.1 < st.nextId + 1
        rw [if_pos hn0] at hp
        rcases List.mem_append.mp hp with hold | hnew
        · have := hS.boundPal p hold
          omega
        · rcases List.mem_singleton.mp hnew with rfl
          omega
      · intro h i hh
        rw [alistGet_cons] at hh
        by_cases he : encodeHex c = h
        · rw [if_pos he] at hh
          cases hh
          exact ⟨encodeHex c, by rw [alistGet_cons, if_pos rfl]⟩
        · rw [if_neg he] at hh
          have hlt := hS.boundC2I h i hh
          obtain ⟨s, hs⟩ := hS.keyI2C h i hh
          refine ⟨s, ?_⟩
          rw [alistGet_cons, if_neg (by omega)]
          exact hs
      · intro p hp
        rw [if_pos hn0] at hp
        rcases List.mem_append.mp hp with hold | hnew
        · have hlt := hS.boundPal p hold
          obtain ⟨s, hs⟩ := hS.palI2C p hold
          refine ⟨s, ?_⟩
          rw [alistGet_cons, if_neg (by omega)]
          exact hs
        · rcases List.mem_singleton.mp hnew with rfl
          exact ⟨encodeHex c, by rw [alistGet_cons, if_pos rfl]⟩

/-- Additional invariants that hold when the tolerance is zero, so the
fuzzy branch never runs: the two tables are inverse to each other. -/
structure ScanInv0 (st : ScanState) : Prop where
  boundC2I : ∀ h i, alistGet st.colorToId h = some i → i < st.nextId
  boundI2C : ∀ p ∈ st.idToColor, p.1 < st.nextId
  bij : ∀ h i, alistGet st.colorToId h = some i → alistGet st.idToColor i = some h

theorem scanInv0_init : ScanInv0 initState := by
  refine ⟨?_, ?_, ?_⟩
  · intro h i hh
    show i < 1
    have := alistGet_singleton hh
    omega
  · intro p hp
    show p.1 < 1
    rcases List.mem_singleton.mp hp with rfl
    omega
  · intro h i hh
    obtain ⟨rfl, rfl⟩ := alistGet_singleton hh
    decide

theorem resolveId_inv0 (st : ScanState) (c : Rgba) (hS : ScanInv0 st) :
    ScanInv0 (resolveId 0 st c).2 := by
  simp only [resolveId]
  cases hm : alistGet st.colorToId (encodeHex c) with
  | some j => exact hS
  | none =>
    have hf : (if 0 < (0 : ℚ) ∧ 0 < c.a then st.palette.find? (fun p => withinTol 0 c p.2) else none) = none := by
      rw [if_neg]
      rintro ⟨h0, -⟩
      exact absurd h0 (lt_irrefl 0)
    rw [hf]
    show ScanInv0
      { colorToId := (encodeHex c, st.nextId) :: st.colorToId
        idToColor := (st.nextId, encodeHex c) :: st.idToColor
        palette := if st.nextId ≠ 0 then st.palette ++ [(st.nextId, c)] else st.palette
        nextId := st.nextId + 1 }
    refine ⟨?_, ?_, ?_⟩
    · intro h i hh
      show i < st.nextId + 1
      rw [alistGet_cons] at hh
      by_cases he : encodeHex c = h
      · rw [if_pos he] at hh
        cases hh
        omega
      · rw [if_neg he] at hh
        have := hS.boundC2I h i hh
        omega
    · intro p hp
      show p.1 < st.nextId + 1
      rcases List.mem_cons.mp hp with rfl | hold
      · omega
      · have := hS.boundI2C p hold
        omega
    · intro h i hh
      rw [alistGet_cons] at hh
      by_cases he : encodeHex c = h
      · rw [if_pos he] at hh
        cases hh
        show alistGet ((st.nextId, encodeHex c) :: st.idToColor) st.nextId = some h
        rw [alistGet_cons, if_pos rfl, he]
      · rw [if_neg he] at hh
        have hlt := hS.boundC2I h i hh
        show alistGet ((st.nextId, encodeHex c) :: st.idToColor) i = some h
        rw [alistGet_cons, if_neg (by omega)]
        exact hS.bij h i hh

theorem scanRow_pres (tol : ℚ) (row : List Rgba) : ∀ st h i,
    alistGet st.colorToId h = some i →
    alistGet (scanRow tol st row).2.colorToId h = some i := by
  induction row with
  | nil => intro st h i hh; exact hh
  | cons c cs ih =>
    intro st h i hh
    exact ih _ _ _ (resolveId_pres tol st c h i hh)

theorem scanRow_isSome (tol : ℚ) (row : List Rgba) : ∀ st c, c ∈ row →
    ∃ i, alistGet (scanRow tol st row).2.colorToId (encodeHex c) = some i := by
  induction row with
  | nil => intro st c hc; exact absurd hc (List.not_mem_nil c)
  | cons d cs ih =>
    intro st c hc
    rcases List.mem_cons.mp hc with rfl | hmem
    · exact ⟨(resolveId tol st c).1,
        scanRow_pres tol cs _ _ _ (resolveId_self tol st c)⟩
    · exact ih _ _ hmem

theorem scanRow_inv (tol : ℚ) (row : List Rgba) : ∀ st, ScanInv st →
    ScanInv (scanRow tol st row).2 := by
  induction row with
  | nil => intro st hS; exact hS
  | cons c cs ih => intro st hS; exact ih _ (resolveId_inv tol st c hS)

theorem scanRow_inv0 (row : List Rgba) : ∀ st, ScanInv0 st →
    ScanInv0 (scanRow 0 st row).2 := by
  induction row with
  | nil => intro st hS; exact hS
  | cons c cs ih => intro st hS; exact ih _ (resolveId_inv0 st c hS)

theorem scanRow_spec (tol : ℚ) (row : List Rgba) : ∀ st,
    (scanRow tol st row).1 =
      row.map (fun c => (alistGet (scanRow tol st row).2.colorToId (encodeHex c)).getD 0) := by
  induction row with
  | nil => intro st; rfl
  | cons c cs ih =>
    intro st
    show (resolveId tol st c).1 :: (scanRow tol (resolveId tol st c).2 cs).1 =
      List.map (fun d => (alistGet (scanRow tol (resolveId tol st c).2 cs).2.colorToId (encodeHex d)).getD 0) (c :: cs)
    simp only [List.map_cons]
    have h1 := scanRow_pres tol cs (resolveId tol st c).2 _ _ (resolveId_self tol st c)
    rw [h1, Option.getD_some, ih]

theorem scanRows_pres (tol : ℚ) (rows : List (List Rgba)) : ∀ st h i,
    alistGet st.colorToId h = some i →
    alistGet (scanRows tol st rows).2.colorToId h = some i := by
  induction rows with
  | nil => intro st h i hh; exact hh
  | cons row rows ih =>
    intro st h i hh
    exact ih _ _ _ (scanRow_pres tol row st h i hh)

theorem scanRows_isSome (tol : ℚ) (rows : List (List Rgba)) : ∀ st c, c ∈ rows.flatten →
    ∃ i, alistGet (scanRows tol st rows).2.colorToId (encodeHex c) = some i := by
  induction rows with
  | nil =>
    intro st c hc
    exact absurd hc (by simp)
  | cons row rows ih =>
    intro st c hc
    rcases List.mem_flatten.mp hc with ⟨l, hl, hcl⟩
    rcases List.mem_cons.mp hl with rfl | hrows
    · obtain ⟨i, hi⟩ := scanRow_isSome tol l st c hcl
      exact ⟨i, scanRows_pres tol rows _ _ _ hi⟩
    · exact ih _ c (List.mem_flatten.mpr ⟨l, hrows, hcl⟩)

theorem scanRows_inv (tol : ℚ) (rows : List (List Rgba)) : ∀ st, ScanInv st →
    ScanInv (scanRows tol st rows).2 := by
  induction rows with
  | nil => intro st hS; exact hS
  | cons row rows ih => intro st hS; exact ih _ (scanRow_inv tol row st hS)

theorem scanRows_inv0 (rows : List (List Rgba)) : ∀ st, ScanInv0 st →
    ScanInv0 (scanRows 0 st rows).2 := by
  induction rows with
  | nil => intro st hS; exact hS
  | cons row rows ih => intro st hS; exact ih _ (scanRow_inv0 row st hS)

theorem scanRows_spec (tol : ℚ) (rows : List (List Rgba)) : ∀ st,
    (scanRows tol st rows).1 =
      rows.map (fun row => row.map (fun c =>
        (alistGet (scanRows tol st rows).2.colorToId (encodeHex c)).getD 0)) := by
  induction rows with
  | nil => intro st; rfl
  | cons row rows ih =>
    intro st
    show (scanRow tol st row).1 :: (scanRows tol (scanRow tol st row).2 rows).1 =
      List.map (fun r => r.map (fun c =>
        (alistGet (scanRows tol (scanRow tol st row).2 rows).2.colorToId (encodeHex c)).getD 0)) (row :: rows)
    simp only [List.map_cons]
    rw [ih]
    congr 1
    rw [scanRow_spec]
    apply List.map_congr_left
    intro c hc
    obtain ⟨i, hi⟩ := scanRow_isSome tol row st c hc
    rw [hi, scanRows_pres tol rows _ _ _ hi]

theorem scanImage_inv (img : Image) (B : ℕ) (tol : ℚ) :
    ScanInv (scanImage img B tol).2 :=
  scanRows_inv tol (sampleGrid img B) initState scanInv_init

theorem scanImage_inv0 (img : Image) (B : ℕ) :
    ScanInv0 (scanImage img B 0).2 :=
  scanRows_inv0 (sampleGrid img B) initState scanInv0_init

theorem sampleGrid_length (img : Image) (B : ℕ) :
    (sampleGrid img B).length = ceilDiv img.height B := by
  simp [sampleGrid]

theorem sampleGrid_row_length (img : Image) (B : ℕ) :
    ∀ row ∈ sampleGrid img B, row.length = ceilDiv img.width B := by
  intro row hrow
  rcases List.mem_map.mp hrow with ⟨i, -, rfl⟩
  simp

theorem list_toFinset_map {α β : Type} [DecidableEq α] [DecidableEq β] (f : α → β) :
    ∀ l : List α, (l.map f).toFinset = l.toFinset.image f := by
  intro l
  induction l with
  | nil => simp
  | cons a l ih => simp [ih]

theorem scanImage_grid_eq (img : Image) (B : ℕ) (tol : ℚ) :
    (scanImage img B tol).1 = (sampleGrid img B).map (fun row => row.map (fun c =>
      (alistGet (scanImage img B tol).2.colorToId (encodeHex c)).getD 0)) :=
  scanRows_spec tol (sampleGrid img B) initState

theorem scanImage_flatten_eq (img : Image) (B : ℕ) (tol : ℚ) :
    (scanImage img B tol).1.flatten =
      ((sampleGrid img B).flatten.map encodeHex).map (fun h =>
        (alistGet (scanImage img B tol).2.colorToId h).getD 0) := by
  rw [scanImage_grid_eq img B tol, ← List.map_flatten, List.map_map]
  rfl

theorem distinctCount_le_hexCount (img : Image) (B : ℕ) (tol : ℚ) :
    distinctCount (scanImage img B tol).1 ≤
      ((sampleGrid img B).flatten.map encodeHex).toFinset.card := by
  unfold distinctCount
  rw [scanImage_flatten_eq, list_toFinset_map]
  exact Finset.card_image_le

theorem distinctCount_zero_eq_hexCount (img : Image) (B : ℕ) :
    distinctCount (scanImage img B 0).1 =
      ((sampleGrid img B).flatten.map encodeHex).toFinset.card := by
  unfold distinctCount
  rw [scanImage_flatten_eq, list_toFinset_map]
  apply Finset.card_image_of_injOn
  intro h1 h1mem h2 h2mem heq
  obtain ⟨c1, hc1, rfl⟩ := List.mem_map.mp (List.mem_toFinset.mp h1mem)
  obtain ⟨c2, hc2, rfl⟩ := List.mem_map.mp (List.mem_toFinset.mp h2mem)
  obtain ⟨i1, hi1⟩ := scanRows_isSome 0 (sampleGrid img B) initState c1 hc1
  obtain ⟨i2, hi2⟩ := scanRows_isSome 0 (sampleGrid img B) initState c2 hc2
  have hi1' : alistGet (scanImage img B 0).2.colorToId (encodeHex c1) = some i1 := hi1
  have hi2' : alistGet (scanImage img B 0).2.colorToId (encodeHex c2) = some i2 := hi2
  have hbij := (scanImage_inv0 img B).bij
  have e1 := hbij _ _ hi1'
  have e2 := hbij _ _ hi2'
  dsimp only at heq
  rw [hi1', hi2'] at heq
  simp only [Option.getD_some] at heq
  rw [heq] at e1
  rw [e1] at e2
  exact Option.some.injEq _ _ ▸ e2

theorem ceilDiv_one_eq (n : ℕ) : ceilDiv n 1 = n := by
  simp [ceilDiv]

theorem getD_map_range {β : Type} (F : ℕ → β) (n i : ℕ) (d : β) (h : i < n) :
    ((List.range n).map F).getD i d = F i := by
  rw [List.getD_eq_getElem?_getD, List.getElem?_map, List.getElem?_range h]
  rfl

theorem exceptMapList_ok {α β : Type} (f : α → Except String β) (g : α → β) :
    ∀ l : List α, (∀ x ∈ l, f x = Except.ok (g x)) →
      exceptMapList f l = Except.ok (l.map g) := by
  intro l
  induction l with
  | nil => intro _; rfl
  | cons x xs ih =>
    intro hall
    have hx := hall x (List.mem_cons_self x xs)
    have hxs := ih (fun y hy => hall y (List.mem_cons_of_mem x hy))
    simp only [exceptMapList, hx, hxs, List.map_cons]

theorem blockSample_one (img : Image) (x y : ℕ)
    (halpha : (img.pix x y).a = 0 → img.pix x y = ⟨0, 0, 0, 0⟩) :
    blockSample img 1 x y = img.pix x y := by
  unfold blockSample
  rw [if_neg (by omega)]
  show (if (img.pix x y).a = 0 then (⟨0, 0, 0, 0⟩ : Rgba) else img.pix x y) = img.pix x y
  by_cases h : (img.pix x y).a = 0
  · rw [if_pos h, halpha h]
  · rw [if_neg h]

theorem sampleGrid_one (img : Image)
    (ha : ∀ x y, x < img.width → y < img.height → (img.pix x y).a = 0 → img.pix x y = ⟨0, 0, 0, 0⟩) :
    sampleGrid img 1 = (List.range img.height).map (fun i =>
      (List.range img.width).map (fun j => img.pix j i)) := by
  unfold sampleGrid
  rw [ceilDiv_one_eq, ceilDiv_one_eq]
  apply List.map_congr_left
  intro i hi
  apply List.map_congr_left
  intro j hj
  rw [mul_one, mul_one]
  exact blockSample_one img j i (ha j i (List.mem_range.mp hj) (List.mem_range.mp hi))

theorem scanImage_one_grid (img : Image)
    (ha : ∀ x y, x < img.width → y < img.height → (img.pix x y).a = 0 → img.pix x y = ⟨0, 0, 0, 0⟩) :
    (scanImage img 1 0).1 = (List.range img.height).map (fun i =>
      (List.range img.width).map (fun j =>
        (alistGet (scanImage img 1 0).2.colorToId (encodeHex (img.pix j i))).getD 0)) := by
  rw [scanImage_grid_eq, sampleGrid_one img ha, List.map_map]
  apply List.map_congr_left
  intro i hi
  show ((List.range img.width).map (fun j => img.pix j i)).map _ = _
  rw [List.map_map]
  rfl

theorem scanImage_one_cell (img : Image)
    (ha : ∀ x y, x < img.width → y < img.height → (img.pix x y).a = 0 → img.pix x y = ⟨0, 0, 0, 0⟩)
    (x y : ℕ) (hx : x < img.width) (hy : y < img.height) :
    ∃ i, alistGet (scanImage img 1 0).2.colorToId (encodeHex (img.pix x y)) = some i ∧
      alistGet (scanImage img 1 0).2.idToColor i = some (encodeHex (img.pix x y)) := by
  have hmem : img.pix x y ∈ (sampleGrid img 1).flatten := by
    rw [sampleGrid_one img ha]
    apply List.mem_flatten.mpr
    refine ⟨(List.range img.width).map (fun j => img.pix j y), ?_, ?_⟩
    · exact List.mem_map.mpr ⟨y, List.mem_range.mpr hy, rfl⟩
    · exact List.mem_map.mpr ⟨x, List.mem_range.mpr hx, rfl⟩
  obtain ⟨i, hi⟩ := scanRows_isSome 0 (sampleGrid img 1) initState _ hmem
  have hi' : alistGet (scanImage img 1 0).2.colorToId (encodeHex (img.pix x y)) = some i := hi
  exact ⟨i, hi', (scanImage_inv0 img 1).bij _ _ hi'⟩

theorem reconstructImage_eq_ok (m : List (List ℕ)) (colors : List (ℕ × String)) (rows : List (List Rgba))
    (hne : m.isEmpty = false)
    (hany : (m.any (fun row => decide ((m.headD []).length < row.length))) = false)
    (hmap : exceptMapList (fun row => exceptMapList (decodeCell colors) row) m = Except.ok rows) :
    reconstructImage m colors = Except.ok ⟨(m.headD []).length, m.length,
      fun x y => ((rows.getD y []).getD x ⟨0, 0, 0, 0⟩)⟩ := by
  unfold reconstructImage
  rw [hne]
  simp only [Bool.false_eq_true, if_false]
  rw [hany]
  simp only [Bool.false_eq_true, if_false]
  rw [hmap]

/-- C1 (amended): for every valid nonempty image in which every fully
transparent pixel is transparent black, running the scan with block
size 1 and tolerance 0 and then reconstructing from the produced matrix
and color table yields an image of the same width and height whose
every pixel equals the original.  (The amendment excludes pixels with
alpha 0 and nonzero RGB, which the code canonicalizes to transparent
black; see the counterexample.) -/
theorem c1_roundtrip_amended (img : Image) (hv : img.Valid)
    (hh : 0 < img.height)
    (ha : ∀ x y, x < img.width → y < img.height → (img.pix x y).a = 0 → img.pix x y = ⟨0, 0, 0, 0⟩) :
    ∃ out : Image,
      reconstructImage (scanImage img 1 0).1 (scanImage img 1 0).2.idToColor = Except.ok out ∧
      out.width = img.width ∧ out.height = img.height ∧
      ∀ x y, x < img.width → y < img.height → out.pix x y = img.pix x y := by
  have hg := scanImage_one_grid img ha
  have hdecode : ∀ x y, x < img.width → y < img.height →
      decodeCell (scanImage img 1 0).2.idToColor
        ((alistGet (scanImage img 1 0).2.colorToId (encodeHex (img.pix x y))).getD 0) =
        Except.ok (img.pix x y) := by
    intro x y hx hy
    obtain ⟨i, hi, hbij⟩ := scanImage_one_cell img ha x y hx hy
    rw [hi, Option.getD_some]
    unfold decodeCell
    rw [hbij]
    exact hexToRgba_encodeHex _ (hv x y)
  have hval : ∀ x y, x < img.width → y < img.height →
      ((alistGet (scanImage img 1 0).2.idToColor
        ((alistGet (scanImage img 1 0).2.colorToId (encodeHex (img.pix x y))).getD 0)).bind
          (fun hx => (hexToRgba hx).toOption)).getD ⟨0, 0, 0, 0⟩ = img.pix x y := by
    intro x y hx hy
    obtain ⟨i, hi, hbij⟩ := scanImage_one_cell img ha x y hx hy
    rw [hi, Option.getD_some, hbij, Option.some_bind, hexToRgba_encodeHex _ (hv x y)]
    rfl
  have houter : exceptMapList (fun row => exceptMapList
        (decodeCell (scanImage img 1 0).2.idToColor) row) (scanImage img 1 0).1 =
      Except.ok ((scanImage img 1 0).1.map (fun row => row.map (fun id =>
        ((alistGet (scanImage img 1 0).2.idToColor id).bind
          (fun hx => (hexToRgba hx).toOption)).getD ⟨0, 0, 0, 0⟩))) := by
    apply exceptMapList_ok
    intro row hrow
    apply exceptMapList_ok
    intro id hid
    rw [hg] at hrow
    obtain ⟨y, hy, rfl⟩ := List.mem_map.mp hrow
    obtain ⟨x, hx, rfl⟩ := List.mem_map.mp hid
    rw [hval x y (List.mem_range.mp hx) (List.mem_range.mp hy)]
    exact hdecode x y (List.mem_range.mp hx) (List.mem_range.mp hy)
  have hglen : (scanImage img 1 0).1.length = img.height := by
    rw [hg]
    simp
  have hhead : ((scanImage img 1 0).1.headD []).length = img.width := by
    rw [hg, List.headD_eq_head?, List.head?_eq_getElem?]
    obtain ⟨h', hh'⟩ : ∃ h', img.height = h' + 1 := ⟨img.height - 1, by omega⟩
    rw [hh', List.range_succ_eq_map]
    simp
  have hrows : ∀ row ∈ (scanImage img 1 0).1, row.length = img.width := by
    intro row hrow
    rw [hg] at hrow
    obtain ⟨y, hy, rfl⟩ := List.mem_map.mp hrow
    simp
  have hne : (scanImage img 1 0).1.isEmpty = false := by
    cases hE : (scanImage img 1 0).1.isEmpty
    · rfl
    · exfalso
      have h0 := List.isEmpty_iff.mp hE
      rw [h0] at hglen
      simp at hglen
      omega
  have hany : ((scanImage img 1 0).1.any (fun row =>
      decide (((scanImage img 1 0).1.headD []).length < row.length))) = false := by
    rw [List.any_eq_false]
    intro row hrow
    rw [hhead, hrows row hrow]
    simp
  refine ⟨⟨((scanImage img 1 0).1.headD []).length, (scanImage img 1 0).1.length,
    fun x y => ((((scanImage img 1 0).1.map (fun row => row.map (fun id =>
      ((alistGet (scanImage img 1 0).2.idToColor id).bind
        (fun hx => (hexToRgba hx).toOption)).getD ⟨0, 0, 0, 0⟩))).getD y []).getD x ⟨0, 0, 0, 0⟩)⟩,
    ?_, hhead, hglen, ?_⟩
  · exact reconstructImage_eq_ok _ _ _ hne hany houter
  · intro x y hx hy
    show ((((scanImage img 1 0).1.map (fun row => row.map (fun id =>
        ((alistGet (scanImage img 1 0).2.idToColor id).bind
          (fun hx => (hexToRgba hx).toOption)).getD ⟨0, 0, 0, 0⟩))).getD y []).getD x ⟨0, 0, 0, 0⟩) =
      img.pix x y
    rw [hg, List.map_map, getD_map_range _ _ _ _ hy]
    show ((((List.range img.width).map (fun j =>
        (alistGet (scanImage img 1 0).2.colorToId (encodeHex (img.pix j y))).getD 0)).map (fun id =>
        ((alistGet (scanImage img 1 0).2.idToColor id).bind
          (fun hx => (hexToRgba hx).toOption)).getD ⟨0, 0, 0, 0⟩)).getD x ⟨0, 0, 0, 0⟩) =
      img.pix x y
    rw [List.map_map, getD_map_range _ _ _ _ hx]
    exact hval x y hx hy

theorem blockSample_alpha_zero (img : Image) (B x y : ℕ)
    (h0 : (blockSample img B x y).a = 0) : blockSample img B x y = ⟨0, 0, 0, 0⟩ := by
  simp only [blockSample] at h0 ⊢
  by_cases hB : 1 < B
  · rw [if_pos hB] at h0 ⊢
    by_cases hA : blockSum img Rgba.a x (min (x + B) img.width) y (min (y + B) img.height) /
        ((min (x + B) img.width - x) * (min (y + B) img.height - y)) % 256 = 0
    · rw [if_pos hA]
    · rw [if_neg hA] at h0
      exact absurd h0 hA
  · rw [if_neg hB] at h0 ⊢
    by_cases hA : (img.pix x y).a = 0
    · rw [if_pos hA]
    · rw [if_neg hA] at h0
      exact absurd h0 hA

theorem blockMean_one (img : Image) (x y : ℕ) (hx : x < img.width) (hy : y < img.height)
    (hv : img.Valid) : blockMean img 1 x y = img.pix x y := by
  obtain ⟨hr, hg, hb, ha⟩ := hv x y
  have h1 : List.range 1 = [0] := rfl
  simp only [blockMean, blockSum]
  rw [min_eq_left (by omega : x + 1 ≤ img.width), min_eq_left (by omega : y + 1 ≤ img.height)]
  simp only [Nat.add_sub_cancel_left, h1, List.map_cons, List.map_nil, List.sum_cons,
    List.sum_nil, Nat.add_zero, Nat.mul_one, Nat.one_mul, Nat.div_one]
  have er : (img.pix x y).r % 256 = (img.pix x y).r := by omega
  have eg : (img.pix x y).g % 256 = (img.pix x y).g := by omega
  have eb : (img.pix x y).b % 256 = (img.pix x y).b := by omega
  have ea : (img.pix x y).a % 256 = (img.pix x y).a := by omega
  rw [er, eg, eb, ea]

theorem find?_first {α : Type} (p : α → Bool) (x : α) (l2 : List α) :
    ∀ l1 : List α, (∀ q ∈ l1, p q = false) → p x = true →
      (l1 ++ x :: l2).find? p = some x := by
  intro l1
  induction l1 with
  | nil =>
    intro _ hx
    exact List.find?_cons_of_pos l2 hx
  | cons a t ih =>
    intro hall hx
    rw [List.cons_append, List.find?_cons_of_neg]
    · exact ih (fun q hq => hall q (List.mem_cons_of_mem a hq)) hx
    · rw [hall a (List.mem_cons_self a t)]
      exact Bool.false_ne_true

theorem resolveId_hexlen (tol : ℚ) (st : ScanState) (c : Rgba)
    (H : ∀ p ∈ st.idToColor, p.2.length = 9) :
    ∀ p ∈ (resolveId tol st c).2.idToColor, p.2.length = 9 := by
  simp only [resolveId]
  cases hm : alistGet st.colorToId (encodeHex c) with
  | some j => exact H
  | none =>
    cases hf : (if 0 < tol ∧ 0 < c.a then st.palette.find? (fun p => withinTol tol c p.2) else none) with
    | some p => exact H
    | none =>
      intro p hp
      rcases List.mem_cons.mp hp with rfl | hold
      · exact encodeHex_length c
      · exact H p hold

theorem scanRow_hexlen (tol : ℚ) (row : List Rgba) : ∀ st,
    (∀ p ∈ st.idToColor, p.2.length = 9) →
    ∀ p ∈ (scanRow tol st row).2.idToColor, p.2.length = 9 := by
  induction row with
  | nil => intro st H; exact H
  | cons c cs ih => intro st H; exact ih _ (resolveId_hexlen tol st c H)

theorem scanRows_hexlen (tol : ℚ) (rows : List (List Rgba)) : ∀ st,
    (∀ p ∈ st.idToColor, p.2.length = 9) →
    ∀ p ∈ (scanRows tol st rows).2.idToColor, p.2.length = 9 := by
  induction rows with
  | nil => intro st H; exact H
  | cons row rows ih => intro st H; exact ih _ (scanRow_hexlen tol row st H)

/-- C1 witness: the amended round-trip theorem applied to the concrete
1 by 1 opaque red image. -/
theorem c1_roundtrip_witness :
    redImg.Valid ∧ 0 < redImg.height ∧
    (∃ out : Image,
      reconstructImage (scanImage redImg 1 0).1 (scanImage redImg 1 0).2.idToColor = Except.ok out ∧
      out.width = redImg.width ∧ out.height = redImg.height ∧
      ∀ x y, x < redImg.width → y < redImg.height → out.pix x y = redImg.pix x y) := by
  refine ⟨fun _ _ => (by decide : Rgba.valid ⟨255, 0, 0, 255⟩), by decide,
    c1_roundtrip_amended redImg (fun _ _ => (by decide : Rgba.valid ⟨255, 0, 0, 255⟩))
      (by decide) ?_⟩
  intro x y hx hy h0
  exact absurd h0 (by decide : ¬((255 : ℕ) = 0))

/-- C1 counterexample: a fully transparent red pixel (200,0,0,0) round
trips to (0,0,0,0), so reconstruction does not reproduce the exact RGBA
value of every pixel. -/
theorem c1_roundtrip_cex :
    (reconstructImage (scanImage transRedImg 1 0).1 (scanImage transRedImg 1 0).2.idToColor).toOption.map
        (fun out => out.pix 0 0) = some ⟨0, 0, 0, 0⟩ ∧
    transRedImg.pix 0 0 = ⟨200, 0, 0, 0⟩ ∧
    ¬((⟨0, 0, 0, 0⟩ : Rgba) = ⟨200, 0, 0, 0⟩) := by
  refine ⟨by decide, by decide, by decide⟩

/-- C2 (amended): every hex string the scan stores in the color table
is a 4-channel `#rrggbbaa` string of 9 characters with the alpha
channel included; in map mode a pure red opaque pixel yields the entry
"#ff0000ff", not "#ff0000". -/
theorem c2_hex_format_amended :
    (∀ (img : Image) (B : ℕ) (tol : ℚ), ∀ p ∈ (scanImage img B tol).2.idToColor, p.2.length = 9) ∧
    alistGet (scanImage redImg 1 0).2.idToColor 1 = some "#ff0000ff" := by
  constructor
  · intro img B tol
    apply scanRows_hexlen tol (sampleGrid img B) initState
    intro p hp
    rcases List.mem_singleton.mp hp with rfl
    decide
  · decide

/-- C2 witness: the length invariant applied to the transparent entry
of a concrete run. -/
theorem c2_hex_format_witness :
    ((0, "#00000000") ∈ (scanImage redImg 1 0).2.idToColor) ∧ ("#00000000" : String).length = 9 :=
  ⟨by decide, c2_hex_format_amended.1 redImg 1 0 (0, "#00000000") (by decide)⟩

/-- C2 counterexample: the entry produced for a pure red opaque pixel
in map mode is the 9-character "#ff0000ff", not the claimed 7-character
"#ff0000". -/
theorem c2_hex_format_cex :
    alistGet (scanImage redImg 1 0).2.idToColor 1 = some "#ff0000ff" ∧
    ¬(("#ff0000ff" : String) = "#ff0000") ∧ ¬(("#ff0000ff" : String).length = 7) := by
  refine ⟨by decide, by decide, by decide⟩

/-- C3: every identifier appearing in any row of the produced grid is a
key of the produced color table. -/
theorem c3_grid_ids_have_colors (img : Image) (B : ℕ) (tol : ℚ) :
    ∀ row ∈ (scanImage img B tol).1, ∀ i ∈ row,
      ∃ s, alistGet (scanImage img B tol).2.idToColor i = some s := by
  intro row hrow i hi
  rw [scanImage_grid_eq] at hrow
  obtain ⟨srow, hsrow, rfl⟩ := List.mem_map.mp hrow
  obtain ⟨c, hc, rfl⟩ := List.mem_map.mp hi
  have hmem : c ∈ (sampleGrid img B).flatten := List.mem_flatten.mpr ⟨srow, hsrow, hc⟩
  obtain ⟨j, hj⟩ := scanRows_isSome tol (sampleGrid img B) initState c hmem
  have hj' : alistGet (scanImage img B tol).2.colorToId (encodeHex c) = some j := hj
  rw [hj']
  simp only [Option.getD_some]
  exact (scanImage_inv img B tol).keyI2C _ _ hj'

/-- C3 witness: the invariant applied to the concrete map run on the
red image, whose grid is [[1]]. -/
theorem c3_grid_ids_have_colors_witness :
    ∃ s, alistGet (scanImage redImg 1 0).2.idToColor 1 = some s :=
  c3_grid_ids_have_colors redImg 1 0 [1] (by decide) 1 (by decide)

/-- C4: a sample with zero (averaged) alpha is forced to (0,0,0,0),
resolves to the reserved identifier 0 through the pre-seeded exact
match, and leaves the whole scan state unchanged, so no palette entry
and no identifier is created for it. -/
theorem c4_transparent_canonical (img : Image) (B x y : ℕ) (tol : ℚ) (st : ScanState)
    (hS : ScanInv st) (h0 : (blockSample img B x y).a = 0) :
    blockSample img B x y = ⟨0, 0, 0, 0⟩ ∧
    resolveId tol st (blockSample img B x y) = (0, st) := by
  have hforce := blockSample_alpha_zero img B x y h0
  refine ⟨hforce, ?_⟩
  rw [hforce]
  simp only [resolveId, encodeHex_transparent, hS.transC2I]

/-- C4 witness: the transparent-averaging block of the concrete 2 by 1
image, resolved against the initial state. -/
theorem c4_transparent_canonical_witness :
    (blockSample alphaAvgImg 2 0 0).a = 0 ∧
    blockSample alphaAvgImg 2 0 0 = ⟨0, 0, 0, 0⟩ ∧
    resolveId 0 initState (blockSample alphaAvgImg 2 0 0) = (0, initState) := by
  have h := c4_transparent_canonical alphaAvgImg 2 0 0 0 initState scanInv_init (by decide)
  exact ⟨by decide, h.1, h.2⟩

/-- C5 (amended): the grid has exactly ceil(H/B) rows of exactly
ceil(W/B) entries each, and every block sample is the per-channel
truncating mean over the clamped extent except when the averaged alpha
is 0, in which case the sample is forced to (0,0,0,0) regardless of the
averaged RGB (see the counterexample). -/
theorem c5_grid_shape_amended (img : Image) (B : ℕ) (tol : ℚ) (hB : 0 < B) (hv : img.Valid) :
    ((scanImage img B tol).1.length = ceilDiv img.height B) ∧
    (∀ row ∈ (scanImage img B tol).1, row.length = ceilDiv img.width B) ∧
    (∀ x y, x < img.width → y < img.height → ¬((blockSample img B x y).a = 0) →
      blockSample img B x y = blockMean img B x y) ∧
    (∀ x y, (blockSample img B x y).a = 0 → blockSample img B x y = ⟨0, 0, 0, 0⟩) := by
  refine ⟨?_, ?_, ?_, fun x y h0 => blockSample_alpha_zero img B x y h0⟩
  · rw [scanImage_grid_eq]
    simp [sampleGrid]
  · intro row hrow
    rw [scanImage_grid_eq] at hrow
    obtain ⟨srow, hsrow, rfl⟩ := List.mem_map.mp hrow
    rw [List.length_map]
    exact sampleGrid_row_length img B srow hsrow
  · intro x y hx hy hne
    by_cases hB1 : 1 < B
    · simp only [blockSample, if_pos hB1] at hne ⊢
      by_cases hA : blockSum img Rgba.a x (min (x + B) img.width) y (min (y + B) img.height) /
          ((min (x + B) img.width - x) * (min (y + B) img.height - y)) % 256 = 0
      · rw [if_pos hA] at hne
        exact absurd rfl hne
      · rw [if_neg hA]
        simp only [blockMean]
    · have hBe : B = 1 := by omega
      subst hBe
      have hpa : ¬((img.pix x y).a = 0) := by
        intro hpa0
        apply hne
        simp only [blockSample]
        rw [if_neg hB1]
        show (if (img.pix x y).a = 0 then (⟨0, 0, 0, 0⟩ : Rgba) else img.pix x y).a = 0
        rw [if_pos hpa0]
      have hsample : blockSample img 1 x y = img.pix x y := by
        simp only [blockSample]
        rw [if_neg hB1]
        show (if (img.pix x y).a = 0 then (⟨0, 0, 0, 0⟩ : Rgba) else img.pix x y) = img.pix x y
        rw [if_neg hpa]
      rw [hsample, blockMean_one img x y hx hy hv]

/-- C5 witness: the amended shape theorem at the concrete red image
with block size 1. -/
theorem c5_grid_shape_witness :
    ((scanImage redImg 1 0).1.length = ceilDiv redImg.height 1) ∧
    (∀ row ∈ (scanImage redImg 1 0).1, row.length = ceilDiv redImg.width 1) ∧
    (∀ x y, x < redImg.width → y < redImg.height → ¬((blockSample redImg 1 x y).a = 0) →
      blockSample redImg 1 x y = blockMean redImg 1 x y) ∧
    (∀ x y, (blockSample redImg 1 x y).a = 0 → blockSample redImg 1 x y = ⟨0, 0, 0, 0⟩) :=
  c5_grid_shape_amended redImg 1 0 (by decide) (fun _ _ => (by decide : Rgba.valid ⟨255, 0, 0, 255⟩))

/-- C5 counterexample: the single block of the 2 by 1 image whose
averaged alpha truncates to 0 has sample (0,0,0,0), not the per-channel
truncating mean (255,0,0,0), so the claim as stated is false. -/
theorem c5_grid_shape_cex :
    sampleGrid alphaAvgImg 2 = [[⟨0, 0, 0, 0⟩]] ∧
    blockMean alphaAvgImg 2 0 0 = ⟨255, 0, 0, 0⟩ ∧
    ¬(blockSample alphaAvgImg 2 0 0 = blockMean alphaAvgImg 2 0 0) := by
  refine ⟨by decide, by decide, by decide⟩

/-- C6: when the exact match misses, the tolerance is positive and the
sample is not transparent, the resolved identifier is that of the first
palette entry in insertion order within tolerance (first match wins),
and the miss hex string is additionally recorded as mapping to the
matched identifier; when no palette entry is within tolerance, the
fresh identifier next_id is assigned and recorded in both tables and
the palette. -/
theorem c6_fuzzy_first_match (tol : ℚ) (st : ScanState) (c : Rgba)
    (hmiss : alistGet st.colorToId (encodeHex c) = none)
    (htol : 0 < tol) (ha : 0 < c.a) (hpos : 0 < st.nextId) :
    (∀ l1 pid pc l2, st.palette = l1 ++ (pid, pc) :: l2 →
        withinTol tol c pc = true →
        (∀ q ∈ l1, withinTol tol c q.2 = false) →
        resolveId tol st c =
          (pid, { st with colorToId := (encodeHex c, pid) :: st.colorToId })) ∧
    ((∀ q ∈ st.palette, withinTol tol c q.2 = false) →
        resolveId tol st c =
          (st.nextId,
            { colorToId := (encodeHex c, st.nextId) :: st.colorToId
              idToColor := (st.nextId, encodeHex c) :: st.idToColor
              palette := st.palette ++ [(st.nextId, c)]
              nextId := st.nextId + 1 })) := by
  constructor
  · intro l1 pid pc l2 hpal hhit hprior
    have hfind := @find?_first (ℕ × Rgba) (fun p => withinTol tol c p.2) (pid, pc) l2 l1 hprior hhit
    have hf : (if 0 < tol ∧ 0 < c.a then st.palette.find? (fun p => withinTol tol c p.2)
        else none) = some (pid, pc) := by
      rw [if_pos (⟨htol, ha⟩ : 0 < tol ∧ 0 < c.a), hpal]
      exact hfind
    simp only [resolveId, hmiss, hf]
  · intro hall
    have hf : (if 0 < tol ∧ 0 < c.a then st.palette.find? (fun p => withinTol tol c p.2)
        else none) = none := by
      rw [if_pos (⟨htol, ha⟩ : 0 < tol ∧ 0 < c.a)]
      exact List.find?_eq_none.mpr (fun q hq => by rw [hall q hq]; exact Bool.false_ne_true)
    simp only [resolveId, hmiss, hf]
    rw [if_pos (by omega : st.nextId ≠ 0)]

/-- C6 witness: both branches of the fuzzy-match theorem exercised on a
concrete state whose palette holds a far entry before a near one (first
match wins past the far entry), and on a sample no entry is close to. -/
theorem c6_fuzzy_first_match_witness :
    resolveId 10
        ⟨[("#00000000", 0)], [(0, "#00000000")],
          [(1, ⟨0, 5, 0, 255⟩), (2, ⟨8, 5, 0, 255⟩), (3, ⟨11, 10, 0, 255⟩)], 4⟩
        ⟨9, 0, 0, 255⟩ =
      (2, ⟨(encodeHex ⟨9, 0, 0, 255⟩, 2) :: [("#00000000", 0)], [(0, "#00000000")],
        [(1, ⟨0, 5, 0, 255⟩), (2, ⟨8, 5, 0, 255⟩), (3, ⟨11, 10, 0, 255⟩)], 4⟩) ∧
    resolveId 10
        ⟨[("#00000000", 0)], [(0, "#00000000")], [(1, ⟨0, 5, 0, 255⟩)], 2⟩
        ⟨200, 200, 200, 255⟩ =
      (2, ⟨(encodeHex ⟨200, 200, 200, 255⟩, 2) :: [("#00000000", 0)],
        (2, encodeHex ⟨200, 200, 200, 255⟩) :: [(0, "#00000000")],
        [(1, ⟨0, 5, 0, 255⟩)] ++ [(2, ⟨200, 200, 200, 255⟩)], 3⟩) := by
  constructor
  · exact (c6_fuzzy_first_match 10
      ⟨[("#00000000", 0)], [(0, "#00000000")],
        [(1, ⟨0, 5, 0, 255⟩), (2, ⟨8, 5, 0, 255⟩), (3, ⟨11, 10, 0, 255⟩)], 4⟩
      ⟨9, 0, 0, 255⟩ (by decide) (by decide) (by decide) (by decide)).1
      [(1, ⟨0, 5, 0, 255⟩)] 2 ⟨8, 5, 0, 255⟩ [(3, ⟨11, 10, 0, 255⟩)] rfl (by decide) (by decide)
  · exact (c6_fuzzy_first_match 10
      ⟨[("#00000000", 0)], [(0, "#00000000")], [(1, ⟨0, 5, 0, 255⟩)], 2⟩
      ⟨200, 200, 200, 255⟩ (by decide) (by decide) (by decide) (by decide)).2
      (by decide)

/-- C7 (amended): for every image and block size, running the scan
with any tolerance never yields more distinct grid identifiers than
running it with tolerance 0 (the t1 = 0 case of the claim; the general
case t1 ≤ t2 is refuted by the counterexample). -/
theorem c7_monotone_amended (img : Image) (B : ℕ) (tol : ℚ) :
    distinctCount (scanImage img B tol).1 ≤ distinctCount (scanImage img B 0).1 := by
  rw [distinctCount_zero_eq_hexCount]
  exact distinctCount_le_hexCount img B tol

/-- C7 counterexample: on a concrete 4 by 1 image, tolerances 6 and 10
with 6 ≤ 10 produce 2 and 3 distinct identifiers respectively, so a
larger tolerance can produce strictly more distinct identifiers. -/
theorem c7_monotone_cex :
    (6 : ℚ) ≤ 10 ∧
    distinctCount (scanImage tolCexImg 1 6).1 = 2 ∧
    distinctCount (scanImage tolCexImg 1 10).1 = 3 ∧
    ¬(distinctCount (scanImage tolCexImg 1 10).1 ≤ distinctCount (scanImage tolCexImg 1 6).1) := by
  refine ⟨by decide, by decide, by decide, by decide⟩

/-- C8 (amended): serialization depends on the iteration order of the
colors hash map, which the source never fixes; re-serialization after a
parse is byte-identical whenever the entries are enumerated in the same
order, and in particular always when the table has at most one entry.
The counterexample shows two orders of the same two-entry map that
serialize to different bytes. -/
theorem c8_serialize_amended (m : List (List ℕ)) (cs cs' : List (ℕ × String))
    (hperm : cs.Perm cs') (hlen : cs.length ≤ 1) :
    serializeOutput m cs = serializeOutput m cs' := by
  have he : cs = cs' := by
    cases cs with
    | nil => exact (List.Perm.eq_nil hperm.symm).symm
    | cons a t =>
      cases t with
      | nil => exact (List.perm_singleton.mp hperm.symm).symm
      | cons b u => simp at hlen
  rw [he]

/-- C8 witness: the amended theorem at a one-entry color table. -/
theorem c8_serialize_witness :
    List.Perm [((1 : ℕ), "#ff0000ff")] [((1 : ℕ), "#ff0000ff")] ∧
    ([((1 : ℕ), "#ff0000ff")].length ≤ 1) ∧
    serializeOutput [[1]] [(1, "#ff0000ff")] = serializeOutput [[1]] [(1, "#ff0000ff")] :=
  ⟨List.Perm.refl _, by decide,
    c8_serialize_amended [[1]] [(1, "#ff0000ff")] [(1, "#ff0000ff")] (List.Perm.refl _) (by decide)⟩

/-- C8 counterexample: the same two-entry color map serialized in its
two possible iteration orders yields different bytes, so the
serialize-deserialize-serialize round trip of the source is not
guaranteed to be byte-identical. -/
theorem c8_serialize_cex :
    List.Perm [((0 : ℕ), "#00000000"), (1, "#ff0000ff")] [(1, "#ff0000ff"), (0, "#00000000")] ∧
    ¬(serializeOutput [[0, 1]] [(0, "#00000000"), (1, "#ff0000ff")] =
      serializeOutput [[0, 1]] [(1, "#ff0000ff"), (0, "#00000000")]) := by
  constructor
  · exact List.Perm.swap (1, "#ff0000ff") (0, "#00000000") []
  · decide

/-- C9: reconstruction propagates a parse failure (for instance a
missing colors key) and rejects an empty matrix, returning an error in
both cases; since saving the output image is the last step of
`reconstruct_image` and only happens on success, no output file is
created in these cases. -/
theorem c9_reconstruct_errors :
    (∃ e, reconstructFromParse none = Except.error e) ∧
    (∀ colors : List (ℕ × String), ∃ e, reconstructFromParse (some ([], colors)) = Except.error e) := by
  refine ⟨⟨"missing field colors", rfl⟩, fun colors => ⟨"Matrix is empty", rfl⟩⟩

/-- C10: the color table always contains the pre-seeded entry mapping
identifier 0 to "#00000000" (it is present in the initial state and
never overwritten), even on a run whose grid never contains 0, such as
the map run on the opaque red image. -/
theorem c10_transparent_preseeded :
    (∀ (img : Image) (B : ℕ) (tol : ℚ),
      alistGet (scanImage img B tol).2.idToColor 0 = some "#00000000") ∧
    alistGet initState.idToColor 0 = some "#00000000" ∧
    (∀ row ∈ (scanImage redImg 1 0).1, ∀ i ∈ row, ¬(i = 0)) := by
  refine ⟨fun img B tol => (scanImage_inv img B tol).transI2C, by decide, by decide⟩

/-- C10 witness: the theorem applied to the grid [[1]] of the red map
run, whose only identifier is nonzero. -/
theorem c10_transparent_preseeded_witness :
    ([1] ∈ (scanImage redImg 1 0).1) ∧ (1 ∈ [1]) ∧ ¬((1 : ℕ) = 0) :=
  ⟨by decide, by decide, c10_transparent_preseeded.2.2 [1] (by decide) 1 (by decide)⟩
